import Mathlib

/-!
Shallow embedding of `src/cascade/core/form/abstract_form.py`, the
hierarchical form-validation engine of the repository, together with proofs
about its behaviour.

Modelling conventions:

* Python values flowing through the engine are modelled by `Cascade.Value`
  (`None`, strings, ints and dicts cover everything the engine manipulates).
* The sentinel `NO_VALUE` and per-instance storage `_child_instances` are
  modelled by `Cascade.Slot`: a slot is either `unset` (the sentinel),
  `val v` (a raw or normalized value stored through `Node.__set__`), or
  `sub st` (a child `Form` instance stored through `Form.__set__`, carrying
  the child instance's own slot list).
* A schema class is modelled by `Cascade.NodeDecl` / `Cascade.DeclList`.
  The `DeclList` of a form is the iteration order of the class-level
  `_children` collection.  In the source that collection is a Python `set`
  (`Node.__set_name__` does `owner._children = {self}` / `.add(self)`), so
  its iteration order is *not* guaranteed to be the order in which the
  attributes were declared on the class body; the embedding therefore keeps
  the iteration order abstract as the order of the `DeclList`.
* `_full_form_validation` is a method that subclasses override; it reads the
  (already normalized) instance state and returns a list of message strings.
  It is modelled as a pure function of the form's class identifier and the
  instance state: `HookEnv = Nat → SlotList → List String`.
* Constructors passed to `SimpleTypeField` raise `ValueError`, `TypeError`
  or `OverflowError` on failure; they are modelled as `Value → Option Value`
  with `none` for "raised one of those exceptions".

Custom list types (`DeclList`, `SlotList`, `EntryList`) are used instead of
`List` so that every recursive function below is structurally recursive and
reduces definitionally on concrete inputs.
-/

namespace Cascade

mutual
/-- Python values handled by the form engine: `None`, strings, ints and
(nested) dicts.  A dict is a list of key/value entries in insertion order;
Python dict keys are unique. -/
inductive Value where
  | vNone : Value
  | vStr (s : String) : Value
  | vInt (n : Int) : Value
  | vDict (es : EntryList) : Value

inductive EntryList where
  | nil : EntryList
  | cons (k : String) (v : Value) (rest : EntryList) : EntryList
end

/-- Python truthiness (`if source:` / `if self.name_field:`) for the values
above: `None`, `""`, `0` and `{}` are falsy, everything else truthy. -/
def pyTruthy : Value → Bool
  | Value.vNone => false
  | Value.vStr s => s ≠ ""
  | Value.vInt n => n ≠ 0
  | Value.vDict EntryList.nil => false
  | Value.vDict (EntryList.cons _ _ _) => true

mutual
/-- Python `repr` of a value, used for elements of a dict rendering
(`repr` of a string adds quotes; escapes inside strings are not modelled
because no claim exercises them). -/
def pyRepr : Value → String
  | Value.vNone => "None"
  | Value.vStr s => "'" ++ s ++ "'"
  | Value.vInt n => toString n
  | Value.vDict es => "\x7b" ++ pyReprEntries es ++ "\x7d"

def pyReprEntries : EntryList → String
  | EntryList.nil => ""
  | EntryList.cons k v EntryList.nil => "'" ++ k ++ "': " ++ pyRepr v
  | EntryList.cons k v (EntryList.cons k2 v2 rest) =>
      "'" ++ k ++ "': " ++ pyRepr v ++ ", " ++ pyReprEntries (EntryList.cons k2 v2 rest)
end

/-- Python `str` of a value, as used by the f-string in
`SimpleTypeField._validate_and_normalize` (`str` of a string is the string
itself, `str` of a dict is its repr). -/
def pyStr : Value → String
  | Value.vStr s => s
  | v => pyRepr v

/-- A constructor function handed to `SimpleTypeField.__init__`: a named
function which either returns the normalized value or raises
`ValueError`/`TypeError`/`OverflowError` (modelled as `none`). -/
structure Ctor where
  name : String
  fn : Value → Option Value

/-- Which concrete `Field` subclass a leaf declaration is: the base `Field`
(whose `_validate_and_normalize` returns the value unchanged with no error)
or `SimpleTypeField constructor`. -/
inductive FieldKind where
  | base : FieldKind
  | simpleType (c : Ctor) : FieldKind

mutual
/-- A declared schema node, as registered by `Node.__set_name__` on the
owning class.  `field name nullable default kind` is a `Field` attribute;
`form name nullable nameField classId children` is a nested `Form` attribute
(`classId` identifies the Form subclass so that its
`_full_form_validation` override can be looked up in a `HookEnv`;
`children` is the iteration order of the subclass's `_children` set).
A name of `""` models a falsy/absent `name` (the unbound root has
`name = None`). -/
inductive NodeDecl where
  | field (name : String) (nullable : Bool) (default : Value) (kind : FieldKind) : NodeDecl
  | form (name : String) (nullable : Bool) (nameField : Option String)
      (classId : Nat) (children : DeclList) : NodeDecl

inductive DeclList where
  | nil : DeclList
  | cons (c : NodeDecl) (cs : DeclList) : DeclList
end

mutual
/-- The per-instance storage cell `instance._child_instances[node]`:
the sentinel `NO_VALUE`, a plain stored value, or a stored child `Form`
instance (represented by that instance's own slot list). -/
inductive Slot where
  | unset : Slot
  | val (v : Value) : Slot
  | sub (st : SlotList) : Slot

inductive SlotList where
  | nil : SlotList
  | cons (s : Slot) (ss : SlotList) : SlotList
end

/-- Name of a declared node (`self.name`, assigned by `__set_name__`). -/
def nodeName : NodeDecl → String
  | NodeDecl.field nm _ _ _ => nm
  | NodeDecl.form nm _ _ _ _ => nm

/-- Fresh instance storage built by `Node.__init__`:
`self._child_instances = {c: NO_VALUE for c in self._children}` — every
declared child starts at the sentinel. -/
def declInit : DeclList → SlotList
  | DeclList.nil => SlotList.nil
  | DeclList.cons _ cs => SlotList.cons Slot.unset (declInit cs)

/-- An error entry `(path, message)` as returned by
`validate_and_normalize`. -/
abbrev Err := String × String

/-- Environment giving each Form subclass (by class id) its
`_full_form_validation` override as a pure function of the instance state.
The base implementation returns `[]`. -/
def HookEnv : Type := Nat → SlotList → List String

/-- The trivial hook environment: every class keeps the base
`_full_form_validation`, which returns no messages. -/
def trivEnv : HookEnv := fun _ _ => []

/-- `Node.__get__`: the stored value, except that an unset nullable node
reads as its default.  An unset non-nullable node reads as the sentinel
itself. -/
def nodeGet (nullable : Bool) (default : Value) (s : Slot) : Slot :=
  match s with
  | Slot.unset => if nullable then Slot.val default else Slot.unset
  | s => s

/-- `Node.is_unset` on a `Field` declaration (and, degenerately, the test
`value is NO_VALUE` on any stored value): true iff the slot holds the
sentinel.  Identity with the sentinel is what is tested, so an explicit
`None` value counts as set. -/
def slotIsSentinel : Slot → Bool
  | Slot.unset => true
  | _ => false

/-- Left-to-right, non-overlapping replacement of `".["` by `"["` on a
character list: the effect of Python's `str.replace(".[", "[")` used in
`Form.validate_and_normalize`. -/
def collapseChars : List Char → List Char
  | [] => []
  | '.' :: '[' :: rest => '[' :: collapseChars rest
  | c :: rest => c :: collapseChars rest

/-- Python `path.replace(".[", "[")` on strings. -/
def collapseDotBracket (s : String) : String :=
  String.mk (collapseChars s.data)

/-- Path qualification of one child's error list inside
`Form.validate_and_normalize`: a falsy child name passes errors through
unqualified; otherwise an empty sub-path becomes the child's name and a
non-empty sub-path `p` becomes `(name ++ "." ++ p).replace(".[", "[")`. -/
def pyQualify (name : String) (errs : List Err) : List Err :=
  if name = "" then errs
  else errs.map (fun pe =>
    (if pe.1 = "" then name else collapseDotBracket (name ++ "." ++ pe.1), pe.2))

/-- `Field._validate_and_normalize` / `SimpleTypeField._validate_and_normalize`:
returns `(new_value, error)`.  The base class returns the value unchanged
with no error; `SimpleTypeField` applies the constructor and converts a
raised `ValueError`/`TypeError`/`OverflowError` into the message
`Invalid <constructor-name> value '<raw-value>'` (the returned value is
`None` in that case, and unused). -/
def applyKind : FieldKind → Value → Value × Option String
  | FieldKind.base, v => (v, none)
  | FieldKind.simpleType c, v =>
      match c.fn v with
      | none => (Value.vNone, some ("Invalid " ++ c.name ++ " value '" ++ pyStr v ++ "'"))
      | some w => (w, none)

/-- `Field.validate_and_normalize`: unset and non-nullable gives the single
error `("", "Missing data")`; unset and nullable gives no errors (no
normalization is attempted).  A set slot is read, delegated to
`_validate_and_normalize`, and on success the normalized value is stored
back; on failure the single error `("", message)` is returned and the raw
value is left in place.  (A `Slot.sub` under a field declaration is
unreachable through the engine's API — `Form.__set__` only fires on `Form`
declarations — and is carried through unchanged.) -/
def fieldValidate (k : FieldKind) (nullable : Bool) (s : Slot) : List Err × Slot :=
  match s with
  | Slot.unset =>
      if nullable then ([], Slot.unset) else ([("", "Missing data")], Slot.unset)
  | Slot.val v =>
      match applyKind k v with
      | (_, some e) => ([("", e)], Slot.val v)
      | (w, none) => ([], Slot.val w)
  | Slot.sub st => ([], Slot.sub st)

mutual
/-- Unset test for one child as seen from `Form.is_unset`, which asks each
element yielded by the `children` property.  A field child answers
`Node.is_unset` (sentinel test on its slot).  A form child whose slot holds
an instance answers that instance's `Form.is_unset` (all of *its* children
unset); a form child whose slot does not hold an instance is yielded as the
shared declaration object, whose own storage is all-sentinel, so the
recursive test runs over `declInit` of its children. -/
def nodeIsUnset : NodeDecl → Slot → Bool
  | NodeDecl.field _ _ _ _, s => slotIsSentinel s
  | NodeDecl.form _ _ _ _ ch, Slot.sub st => formIsUnset ch st
  | NodeDecl.form _ _ _ _ ch, _ => formIsUnset ch (declInit ch)

/-- `Form.is_unset`: `all([c.is_unset(self) for c in self.children])`. -/
def formIsUnset : DeclList → SlotList → Bool
  | DeclList.nil, _ => true
  | DeclList.cons _ _, SlotList.nil => true
  | DeclList.cons c cs, SlotList.cons s ss => nodeIsUnset c s && formIsUnset cs ss
end

mutual
/-- Validation of one child as dispatched by the `children` property inside
`Form.validate_and_normalize`, together with the loop over all children.

A field child runs `Field.validate_and_normalize` on its slot.  A form
child whose slot holds an instance runs `Form.validate_and_normalize` on
that instance (the body of which — nullable-unset early return, child loop,
whole-form hook — is inlined here); its slot is replaced by the instance's
updated state.  A form child whose slot is still the sentinel is yielded as
the shared declaration object, so `Form.validate_and_normalize` runs on the
declaration's own all-sentinel storage (`declInit`); an all-unset form
performs no writes (`declInit_validate_fixed` below), so the parent slot
stays as it was. -/
def nodeValidate (env : HookEnv) : NodeDecl → Slot → List Err × Slot
  | NodeDecl.field _ nl _ k, s => fieldValidate k nl s
  | NodeDecl.form _ nl _ cid ch, Slot.sub st =>
      if formIsUnset ch st && nl then ([], Slot.sub st)
      else
        let r := childrenValidate env ch st
        if r.1 = [] then ((env cid r.2).map (fun e => ("", e)), Slot.sub r.2)
        else (r.1, Slot.sub r.2)
  | NodeDecl.form _ nl _ cid ch, s =>
      if formIsUnset ch (declInit ch) && nl then ([], s)
      else
        let r := childrenValidate env ch (declInit ch)
        if r.1 = [] then ((env cid r.2).map (fun e => ("", e)), s)
        else (r.1, s)

/-- The `for child in self.children` loop of `Form.validate_and_normalize`:
each child validates itself against its slot, its errors are path-qualified
with `pyQualify`, and the results are concatenated in iteration order. -/
def childrenValidate (env : HookEnv) : DeclList → SlotList → List Err × SlotList
  | DeclList.nil, rest => ([], rest)
  | DeclList.cons _ _, SlotList.nil => ([], SlotList.nil)
  | DeclList.cons c cs, SlotList.cons s ss =>
      let r := nodeValidate env c s
      let rs := childrenValidate env cs ss
      (pyQualify (nodeName c) r.1 ++ rs.1, SlotList.cons r.2 rs.2)
end

/-- `Form.validate_and_normalize` on an instance of a form of class `cid`
with declared children `ch` and current storage `slots`: the nullable-unset
early return, then the child loop, then — only if the children produced no
errors — the `_full_form_validation` hook, each of whose messages becomes
an error with empty path. -/
def formValidate (env : HookEnv) (nullable : Bool) (cid : Nat)
    (ch : DeclList) (slots : SlotList) : List Err × SlotList :=
  if formIsUnset ch slots && nullable then ([], slots)
  else
    let r := childrenValidate env ch slots
    if r.1 = [] then ((env cid r.2).map (fun e => ("", e)), r.2)
    else r

/-- Number of declared children. -/
def DeclList.length : DeclList → Nat
  | DeclList.nil => 0
  | DeclList.cons _ cs => cs.length + 1

/-- Number of slots. -/
def SlotList.length : SlotList → Nat
  | SlotList.nil => 0
  | SlotList.cons _ ss => ss.length + 1

/-- Child declaration at a position of the iteration order. -/
def DeclList.get? : DeclList → Nat → Option NodeDecl
  | DeclList.nil, _ => none
  | DeclList.cons c _, 0 => some c
  | DeclList.cons _ cs, Nat.succ i => cs.get? i

/-- Slot at a position of the storage. -/
def SlotList.get? : SlotList → Nat → Option Slot
  | SlotList.nil, _ => none
  | SlotList.cons s _, 0 => some s
  | SlotList.cons _ ss, Nat.succ i => ss.get? i

/-- Storage with the slot at one position replaced. -/
def SlotList.set : SlotList → Nat → Slot → SlotList
  | SlotList.nil, _, _ => SlotList.nil
  | SlotList.cons _ ss, 0, x => SlotList.cons x ss
  | SlotList.cons s ss, Nat.succ i, x => SlotList.cons s (ss.set i x)

/-- Whether some declared child has the given bound name (the test
`c.name == k` of the inner loop of `Form.process_source`). -/
def declHasName : DeclList → String → Bool
  | DeclList.nil, _ => false
  | DeclList.cons c cs, k => nodeName c = k || declHasName cs k

/-- Position of the first declared child with the given bound name. -/
def firstIdxName : DeclList → String → Option Nat
  | DeclList.nil, _ => none
  | DeclList.cons c cs, k =>
      if nodeName c = k then some 0 else (firstIdxName cs k).map (· + 1)

/-- The value `self.name` assigned by the `name_field` step of
`Form.process_source`: the form's own bound name, or Python `None` for the
unnamed root. -/
def nameValue : Option String → Value
  | some n => Value.vStr n
  | none => Value.vNone

/-- Whether `if self.name_field:` fires: the configured name must be truthy. -/
def nameFieldActive : Option String → Bool
  | some f => f ≠ ""
  | none => false

mutual
/-- `Form.process_source` on an instance with declared children `ch`,
configured `name_field` `nf` and own bound name `selfName`, currently
storing `slots`: if the document is truthy, distribute its entries
(a truthy non-dict raises `AttributeError` on `.items()`, modelled as
`none`), then, if `name_field` is truthy, assign the form's own name into
the attribute of that name (`setattr` on a name with no matching declared
child writes a plain instance attribute, leaving the child storage
unchanged — `assignKey` returns the slots unmodified in that case). -/
def processSource (ch : DeclList) (nf : Option String) (selfName : Option String)
    (slots : SlotList) (src : Value) : Option SlotList :=
  let afterDist : Option SlotList :=
    if pyTruthy src then
      match src with
      | Value.vDict es => distribute ch slots es
      | _ => none
    else some slots
  match afterDist with
  | none => none
  | some slots1 =>
      if nameFieldActive nf then assignKey ch slots1 (nf.getD "") (nameValue selfName)
      else some slots1
termination_by (sizeOf ch, 2, 0)

/-- The `for k, v in source.items()` loop of `Form.process_source`: each
entry is assigned through `setattr` when some declared child carries its
key, and silently ignored otherwise. -/
def distribute (ch : DeclList) (slots : SlotList) : EntryList → Option SlotList
  | EntryList.nil => some slots
  | EntryList.cons k v rest =>
      match assignKey ch slots k v with
      | none => none
      | some slots1 => distribute ch slots1 rest
termination_by es => (sizeOf ch, 1, sizeOf es)

/-- `setattr(self, k, v)` resolved against the declared children: the first
child whose bound name equals `k` receives the value.  A `Field` child
stores the raw value verbatim (`Node.__set__`); a `Form` child builds a
fresh instance of its class (`new_instance`, all-sentinel storage), gives
it the declaration's bound name, and recursively feeds it the sub-document
(`Form.__set__`).  No matching child: the child storage is untouched. -/
def assignKey : DeclList → SlotList → String → Value → Option SlotList
  | DeclList.nil, slots, _, _ => some slots
  | DeclList.cons _ _, SlotList.nil, _, _ => some SlotList.nil
  | DeclList.cons c cs, SlotList.cons s ss, k, v =>
      if nodeName c = k then
        match c with
        | NodeDecl.field _ _ _ _ => some (SlotList.cons (Slot.val v) ss)
        | NodeDecl.form nm _ nf2 _ sub =>
            match processSource sub nf2 (some nm) (declInit sub) v with
            | none => none
            | some st => some (SlotList.cons (Slot.sub st) ss)
      else
        match assignKey cs ss k v with
        | none => none
        | some ss1 => some (SlotList.cons s ss1)
termination_by ch _ _ _ => (sizeOf ch, 0, 0)
end

/-- Plain-list view of a declaration list, for stating order properties. -/
def DeclList.toList : DeclList → List NodeDecl
  | DeclList.nil => []
  | DeclList.cons c cs => c :: cs.toList

/-- Plain-list view of a slot list. -/
def SlotList.toList : SlotList → List Slot
  | SlotList.nil => []
  | SlotList.cons s ss => s :: ss.toList

/-! ### Sample constructor data

`SimpleTypeField` is exercised in the repository with Python builtins such
as `int`.  The following is a sample constructor modelling `int()`:
it succeeds on ints and on strings spelling an optionally-signed decimal
integer, and raises (`none`) on everything else — in particular on
`"22.4"`, `"abc"` and `None`. -/

/-- Decimal digit value of a character, if it is a digit. -/
def digitVal? (c : Char) : Option Nat :=
  if '0' ≤ c ∧ c ≤ '9' then some (c.toNat - '0'.toNat) else none

/-- Accumulating decimal parse of a digit list. -/
def parseNatChars : List Char → Nat → Option Nat
  | [], acc => some acc
  | c :: rest, acc =>
      match digitVal? c with
      | none => none
      | some d => parseNatChars rest (acc * 10 + d)

/-- Parse of an optionally-signed decimal integer literal. -/
def pyParseInt (s : String) : Option Int :=
  match s.data with
  | [] => none
  | '-' :: rest =>
      if rest = [] then none
      else (parseNatChars rest 0).map (fun n => -(n : Int))
  | l => (parseNatChars l 0).map (fun n => (n : Int))

/-- Behaviour of Python `int` on engine values: ints pass through, integer
strings parse, everything else raises `ValueError`/`TypeError`. -/
def pyIntFn : Value → Option Value
  | Value.vInt n => some (Value.vInt n)
  | Value.vStr s => (pyParseInt s).map Value.vInt
  | _ => none

/-- The `int` constructor as handed to `SimpleTypeField(int)`. -/
def intCtor : Ctor := ⟨"int", pyIntFn⟩

/-! ### Concrete schemas used in the theorems below -/

/-- Schema with a single required field, used to exercise C1. -/
def chC1 : DeclList :=
  DeclList.cons (NodeDecl.field "a" false Value.vNone FieldKind.base) DeclList.nil

/-- Single unset slot for `chC1`. -/
def slotsC1 : SlotList := SlotList.cons Slot.unset SlotList.nil

/-- Nullable form schema with two required fields, used to exercise C2. -/
def chC2 : DeclList :=
  DeclList.cons (NodeDecl.field "x" false Value.vNone FieldKind.base)
    (DeclList.cons (NodeDecl.field "y" false Value.vNone FieldKind.base) DeclList.nil)

/-- Child collection of a class declared with `field_a` first and `field_b`
second, in the admissible storage (set-iteration) order that yields
`field_b` first.  `Node.__set_name__` keeps the children in a Python `set`,
whose iteration order is unrelated to insertion order, so this order can be
the one the engine sees. -/
def chC3 : DeclList :=
  DeclList.cons (NodeDecl.field "field_b" false Value.vNone FieldKind.base)
    (DeclList.cons (NodeDecl.field "field_a" false Value.vNone FieldKind.base) DeclList.nil)

/-- All-unset storage for `chC3`. -/
def slotsC3 : SlotList := SlotList.cons Slot.unset (SlotList.cons Slot.unset SlotList.nil)

/-- Nested form schema `NestedValidator` bound at attribute `nested`, with a
required leaf `field_c`. -/
def nestedDecl : NodeDecl :=
  NodeDecl.form "nested" false none 1
    (DeclList.cons (NodeDecl.field "field_c" false Value.vNone FieldKind.base) DeclList.nil)

/-- Whether every declared child is a leaf field. -/
def allFields : DeclList → Bool
  | DeclList.nil => true
  | DeclList.cons (NodeDecl.field _ _ _ _) cs => allFields cs
  | DeclList.cons _ _ => false

/-- Whether some declared child is a non-nullable leaf field. -/
def hasRequired : DeclList → Bool
  | DeclList.nil => false
  | DeclList.cons (NodeDecl.field _ false _ _) _ => true
  | DeclList.cons _ cs => hasRequired cs

/-- The errors an all-unset, all-field form reports at its own level: one
`Missing data` per non-nullable leaf, qualified with the leaf's name. -/
def innerMissing : DeclList → List Err
  | DeclList.nil => []
  | DeclList.cons (NodeDecl.field lnm false _ _) cs =>
      (lnm, "Missing data") :: innerMissing cs
  | DeclList.cons _ cs => innerMissing cs

/-- Those same errors after the parent qualifies them with the nested
child's bound name `nm`: one `("<nm>.<leaf>", "Missing data")` per
non-nullable leaf. -/
def qualifiedMissing (nm : String) : DeclList → List Err
  | DeclList.nil => []
  | DeclList.cons (NodeDecl.field lnm false _ _) cs =>
      (if lnm = "" then nm else collapseDotBracket (nm ++ "." ++ lnm), "Missing data")
        :: qualifiedMissing nm cs
  | DeclList.cons _ cs => qualifiedMissing nm cs

/-- Nested schema with required leaves `f1`, `f3` and a nullable `f2`. -/
def subC10 : DeclList :=
  DeclList.cons (NodeDecl.field "f1" false Value.vNone FieldKind.base)
    (DeclList.cons (NodeDecl.field "f2" true Value.vNone FieldKind.base)
      (DeclList.cons (NodeDecl.field "f3" false Value.vNone FieldKind.base) DeclList.nil))


/-! ### Basic lemmas about unset-ness and the all-sentinel state -/

/-- The fixed-point contract a constructor must satisfy for re-validation to
be stable: a value it has produced is accepted and reproduced
(`constructor(constructor(v)) == constructor(v)`).  The base `Field`
normalization is the identity, which trivially satisfies it. -/
def kindIdem : FieldKind → Prop
  | FieldKind.base => True
  | FieldKind.simpleType c => ∀ v w, c.fn v = some w → c.fn w = some w

mutual
/-- The fixed-point contract extended over a schema tree. -/
def nodeIdem : NodeDecl → Prop
  | NodeDecl.field _ _ _ k => kindIdem k
  | NodeDecl.form _ _ _ _ ch => declsIdem ch

/-- The fixed-point contract for every declared child. -/
def declsIdem : DeclList → Prop
  | DeclList.nil => True
  | DeclList.cons c cs => nodeIdem c ∧ declsIdem cs
end

/-- Schema with one required `SimpleTypeField(int)`, used to exercise C8. -/
def chC8 : DeclList :=
  DeclList.cons (NodeDecl.field "a" false Value.vNone (FieldKind.simpleType intCtor))
    DeclList.nil

/-- Root schema with a scalar `field_a` and the nested form `nested`, used
to exercise C7. -/
def chC7 : DeclList :=
  DeclList.cons (NodeDecl.field "field_a" false Value.vNone FieldKind.base)
    (DeclList.cons nestedDecl DeclList.nil)

/-- Storage of `chC7` after distributing `{"field_a": "doc"}` with
`name_field = "field_a"` and own name `"myname"`: the name-field step
overrode the document's value. -/
def outC7 : SlotList :=
  SlotList.cons (Slot.val (Value.vStr "myname")) (SlotList.cons Slot.unset SlotList.nil)

mutual
/-- A child whose slot holds the sentinel always reports unset: a field by
the sentinel test, a form because the shared declaration object's own
storage is all-sentinel. -/
theorem nodeIsUnset_unset : (c : NodeDecl) → nodeIsUnset c Slot.unset = true
  | NodeDecl.field _ _ _ _ => rfl
  | NodeDecl.form _ _ _ _ ch => formIsUnset_declInit ch

/-- The freshly initialized storage of a form reports unset. -/
theorem formIsUnset_declInit : (ch : DeclList) → formIsUnset ch (declInit ch) = true
  | DeclList.nil => rfl
  | DeclList.cons c cs => by
      show (nodeIsUnset c Slot.unset && formIsUnset cs (declInit cs)) = true
      rw [nodeIsUnset_unset c, formIsUnset_declInit cs]
      rfl
end

/-- Validating any child whose slot is the sentinel leaves the slot at the
sentinel: an unset field is never written, and an unset form child is
validated through the shared declaration object, not the parent slot. -/
theorem nodeValidate_unset_slot (env : HookEnv) (c : NodeDecl) :
    (nodeValidate env c Slot.unset).2 = Slot.unset := by
  cases c with
  | field nm nl d k =>
      show (fieldValidate k nl Slot.unset).2 = Slot.unset
      cases nl <;> rfl
  | form nm nl nf cid ch =>
      show (nodeValidate env (NodeDecl.form nm nl nf cid ch) Slot.unset).2 = Slot.unset
      simp only [nodeValidate]
      split
      · rfl
      · split <;> rfl

/-- Validating a form whose storage is all-sentinel performs no writes:
the state after the child loop is the all-sentinel state again.  This is
why discarding the declaration object's post-validation state in
`nodeValidate` is faithful: the declaration's storage can never change. -/
theorem childrenValidate_declInit (env : HookEnv) :
    (ch : DeclList) → (childrenValidate env ch (declInit ch)).2 = declInit ch
  | DeclList.nil => rfl
  | DeclList.cons c cs => by
      show SlotList.cons (nodeValidate env c Slot.unset).2
          (childrenValidate env cs (declInit cs)).2
        = SlotList.cons Slot.unset (declInit cs)
      rw [nodeValidate_unset_slot, childrenValidate_declInit env cs]

/-! ### Claims C4, C5, C9: field-level behaviour -/

/-- C4: for a field that is unset on an instance, `validate_and_normalize`
of a non-nullable field returns exactly the single pair
`("", "Missing data")` and the slot stays at the sentinel; for a nullable
field it returns the empty list and does not touch the slot (no
normalization is attempted), and `Node.__get__` returns the configured
default value. -/
theorem C4_unset_field (k : FieldKind) (d : Value) :
    fieldValidate k false Slot.unset = ([("", "Missing data")], Slot.unset)
    ∧ fieldValidate k true Slot.unset = ([], Slot.unset)
    ∧ nodeGet true d Slot.unset = Slot.val d :=
  ⟨rfl, rfl, rfl⟩

/-- C5: for a `SimpleTypeField` with a set raw value, a constructor that
raises (`none`) produces exactly the single error
`("", "Invalid <constructor-name> value '<raw-value>'")` and the raw value
is left in place; a constructor that returns a value stores that returned
value into the slot and produces no errors. -/
theorem C5_simple_type_field (c : Ctor) (nl : Bool) (v w : Value) :
    (c.fn v = none →
      fieldValidate (FieldKind.simpleType c) nl (Slot.val v)
        = ([("", "Invalid " ++ c.name ++ " value '" ++ pyStr v ++ "'")], Slot.val v))
    ∧ (c.fn v = some w →
      fieldValidate (FieldKind.simpleType c) nl (Slot.val v) = ([], Slot.val w)) := by
  constructor
  · intro h
    simp [fieldValidate, applyKind, h]
  · intro h
    simp [fieldValidate, applyKind, h]

/-- C5 witness: `int("abc")` raises, giving the message
`Invalid int value 'abc'` with the raw string kept; `int("10")` succeeds,
storing the integer `10`. -/
theorem C5_witness :
    fieldValidate (FieldKind.simpleType intCtor) false (Slot.val (Value.vStr "abc"))
      = ([("", "Invalid " ++ intCtor.name ++ " value '" ++ pyStr (Value.vStr "abc") ++ "'")],
          Slot.val (Value.vStr "abc"))
    ∧ fieldValidate (FieldKind.simpleType intCtor) false (Slot.val (Value.vStr "10"))
      = ([], Slot.val (Value.vInt 10)) :=
  ⟨(C5_simple_type_field intCtor false (Value.vStr "abc") Value.vNone).1 rfl,
   (C5_simple_type_field intCtor false (Value.vStr "10") (Value.vInt 10)).2 rfl⟩

/-- The conversion-failure message always differs from the missing-data
message (they start with different characters). -/
theorem invalid_ne_missing (a b : String) :
    ("Invalid " ++ a ++ " value '" ++ b ++ "'") ≠ "Missing data" := by
  intro h
  have h2 := congrArg (fun s => s.data.head?) h
  simp only [String.data_append] at h2
  simp at h2

/-- C9: storing an explicit `None` makes a field set — `is_unset` tests
identity with the sentinel, not equality — so a non-nullable field holding
an explicit `None` never reports `"Missing data"`: validation proceeds to
normalization of the `None` value, failing with the constructor's
conversion message or succeeding with its return value. -/
theorem C9_explicit_none (c : Ctor) (nm : String) (d : Value) (w : Value) :
    nodeIsUnset (NodeDecl.field nm false d (FieldKind.simpleType c)) (Slot.val Value.vNone) = false
    ∧ ("", "Missing data")
        ∉ (fieldValidate (FieldKind.simpleType c) false (Slot.val Value.vNone)).1
    ∧ (c.fn Value.vNone = none →
        fieldValidate (FieldKind.simpleType c) false (Slot.val Value.vNone)
          = ([("", "Invalid " ++ c.name ++ " value '" ++ pyStr Value.vNone ++ "'")],
              Slot.val Value.vNone))
    ∧ (c.fn Value.vNone = some w →
        fieldValidate (FieldKind.simpleType c) false (Slot.val Value.vNone)
          = ([], Slot.val w)) := by
  refine ⟨rfl, ?_, ?_, ?_⟩
  · intro hmem
    rcases hfn : c.fn Value.vNone with _ | w2
    · have h1 : (fieldValidate (FieldKind.simpleType c) false (Slot.val Value.vNone)).1
          = [("", "Invalid " ++ c.name ++ " value '" ++ pyStr Value.vNone ++ "'")] := by
        simp [fieldValidate, applyKind, hfn]
      rw [h1] at hmem
      have h2 := List.mem_singleton.mp hmem
      have h3 := congrArg Prod.snd h2
      exact invalid_ne_missing c.name (pyStr Value.vNone) h3.symm
    · have h1 : (fieldValidate (FieldKind.simpleType c) false (Slot.val Value.vNone)).1 = [] := by
        simp [fieldValidate, applyKind, hfn]
      rw [h1] at hmem
      cases hmem
  · intro h
    simp [fieldValidate, applyKind, h]
  · intro h
    simp [fieldValidate, applyKind, h]

/-- C9 witness: `int` raises `TypeError` on `None`, so a non-nullable
`SimpleTypeField(int)` holding an explicit `None` is set, reports the
conversion error — not `"Missing data"` — and keeps the raw `None`. -/
theorem C9_witness :
    nodeIsUnset (NodeDecl.field "a" false Value.vNone (FieldKind.simpleType intCtor))
        (Slot.val Value.vNone) = false
    ∧ ("", "Missing data")
        ∉ (fieldValidate (FieldKind.simpleType intCtor) false (Slot.val Value.vNone)).1
    ∧ fieldValidate (FieldKind.simpleType intCtor) false (Slot.val Value.vNone)
        = ([("", "Invalid " ++ intCtor.name ++ " value '" ++ pyStr Value.vNone ++ "'")],
            Slot.val Value.vNone) := by
  have h := C9_explicit_none intCtor "a" Value.vNone Value.vNone
  exact ⟨h.1, h.2.1, h.2.2.1 rfl⟩

/-! ### Claim C1: gating of the whole-form hook -/

/-- C1: on a form that does not take the nullable-unset early return, if the
child phase produced at least one error then `validate_and_normalize`
returns exactly the collected child errors — for any two hook environments
that make the children behave identically, the result is the same, so this
form's own `_full_form_validation` (including one that would crash) is never
consulted; and if the child phase produced zero errors the result is exactly
the hook's messages with empty paths, i.e. the hook is invoked if and only
if the child phase produced zero errors. -/
theorem C1_whole_form_gate (env env2 : HookEnv) (nl : Bool) (cid : Nat)
    (ch : DeclList) (slots : SlotList)
    (h0 : (formIsUnset ch slots && nl) = false)
    (hagree : childrenValidate env ch slots = childrenValidate env2 ch slots) :
    ((childrenValidate env ch slots).1 ≠ [] →
      (formValidate env nl cid ch slots).1 = (childrenValidate env ch slots).1
      ∧ (formValidate env2 nl cid ch slots).1 = (childrenValidate env ch slots).1)
    ∧ ((childrenValidate env ch slots).1 = [] →
      (formValidate env nl cid ch slots).1
        = (env cid (childrenValidate env ch slots).2).map (fun e => ("", e))) := by
  constructor
  · intro hne
    constructor
    · simp [formValidate, h0, hne]
    · simp [formValidate, h0, ← hagree, hne]
  · intro he
    simp [formValidate, h0, he]

/-- C1 witness: with the required field missing, validation returns only the
child error, and an environment whose whole-form hook would report `"BOOM"`
(standing in for a hook that must never run) leaves the result unchanged. -/
theorem C1_witness :
    (formValidate trivEnv false 0 chC1 slotsC1).1 = [("a", "Missing data")]
    ∧ (formValidate (fun _ _ => ["BOOM"]) false 0 chC1 slotsC1).1 = [("a", "Missing data")] := by
  have h := (C1_whole_form_gate trivEnv (fun _ _ => ["BOOM"]) false 0 chC1 slotsC1
    rfl rfl).1 (by decide)
  exact ⟨h.1, h.2⟩

/-! ### Claim C2: nullability propagation -/

/-- A child that reports non-unset at some position makes the whole form
report non-unset. -/
theorem formIsUnset_false_of_get (j : Nat) :
    ∀ (ch : DeclList) (sl : SlotList) (cj : NodeDecl) (sj : Slot),
      DeclList.get? ch j = some cj → SlotList.get? sl j = some sj →
      nodeIsUnset cj sj = false → formIsUnset ch sl = false := by
  induction j with
  | zero =>
    intro ch sl cj sj h1 h2 h3
    cases ch with
    | nil => simp [DeclList.get?] at h1
    | cons c cs =>
      cases sl with
      | nil => simp [SlotList.get?] at h2
      | cons s ss =>
        simp [DeclList.get?] at h1
        simp [SlotList.get?] at h2
        subst h1; subst h2
        simp [formIsUnset, h3]
  | succ j ih =>
    intro ch sl cj sj h1 h2 h3
    cases ch with
    | nil => simp [DeclList.get?] at h1
    | cons c cs =>
      cases sl with
      | nil => simp [SlotList.get?] at h2
      | cons s ss =>
        have hr := ih cs ss cj sj (by simpa [DeclList.get?] using h1)
          (by simpa [SlotList.get?] using h2) h3
        simp [formIsUnset, hr]

/-- A non-nullable field child that is unset contributes its
`Missing data` error, qualified with its name, to the child phase. -/
theorem missing_mem (env : HookEnv) (i : Nat) :
    ∀ (ch : DeclList) (sl : SlotList) (nm : String) (d : Value) (k : FieldKind),
      DeclList.get? ch i = some (NodeDecl.field nm false d k) →
      SlotList.get? sl i = some Slot.unset → nm ≠ "" →
      (nm, "Missing data") ∈ (childrenValidate env ch sl).1 := by
  induction i with
  | zero =>
    intro ch sl nm d k h1 h2 h3
    cases ch with
    | nil => simp [DeclList.get?] at h1
    | cons c cs =>
      cases sl with
      | nil => simp [SlotList.get?] at h2
      | cons s ss =>
        simp [DeclList.get?] at h1
        simp [SlotList.get?] at h2
        subst h1; subst h2
        have hq : pyQualify nm (fieldValidate k false Slot.unset).1 = [(nm, "Missing data")] := by
          simp [fieldValidate, pyQualify, h3]
        simp only [childrenValidate, nodeValidate, nodeName]
        rw [hq]
        simp
  | succ i ih =>
    intro ch sl nm d k h1 h2 h3
    cases ch with
    | nil => simp [DeclList.get?] at h1
    | cons c cs =>
      cases sl with
      | nil => simp [SlotList.get?] at h2
      | cons s ss =>
        have hr := ih cs ss nm d k (by simpa [DeclList.get?] using h1)
          (by simpa [SlotList.get?] using h2) h3
        simp [childrenValidate]
        exact Or.inr hr

/-- C2: a nullable form all of whose children report unset validates with no
errors and no writes, whatever the nullability of the individual children;
and on a state of the same schema where some child reports a real value, the
form is no longer unset and every non-nullable unset field child now
contributes its `("<name>", "Missing data")` error. -/
theorem C2_nullability (env : HookEnv) (cid : Nat) (ch : DeclList)
    (slots slots2 : SlotList) (i j : Nat) (nm : String) (d : Value) (k : FieldKind)
    (cj : NodeDecl) (sj : Slot)
    (h1 : formIsUnset ch slots = true)
    (h2 : DeclList.get? ch j = some cj) (h3 : SlotList.get? slots2 j = some sj)
    (h4 : nodeIsUnset cj sj = false)
    (h5 : DeclList.get? ch i = some (NodeDecl.field nm false d k))
    (h6 : SlotList.get? slots2 i = some Slot.unset)
    (h7 : nm ≠ "") :
    formValidate env true cid ch slots = ([], slots)
    ∧ formIsUnset ch slots2 = false
    ∧ (nm, "Missing data") ∈ (formValidate env true cid ch slots2).1 := by
  have hu := formIsUnset_false_of_get j ch slots2 cj sj h2 h3 h4
  refine ⟨by simp [formValidate, h1], hu, ?_⟩
  have hm := missing_mem env i ch slots2 nm d k h5 h6 h7
  have hne : (childrenValidate env ch slots2).1 ≠ [] := by
    intro he
    rw [he] at hm
    cases hm
  simpa [formValidate, hu, hne] using hm

/-- C2 witness: both children unset — the nullable form validates cleanly
despite the children being non-nullable; set `x` to a real value — the form
is no longer unset and the still-unset non-nullable `y` now reports
`Missing data`. -/
theorem C2_witness :
    formValidate trivEnv true 7 chC2 (SlotList.cons Slot.unset (SlotList.cons Slot.unset SlotList.nil))
      = ([], SlotList.cons Slot.unset (SlotList.cons Slot.unset SlotList.nil))
    ∧ formIsUnset chC2
        (SlotList.cons (Slot.val (Value.vStr "v")) (SlotList.cons Slot.unset SlotList.nil)) = false
    ∧ ("y", "Missing data")
        ∈ (formValidate trivEnv true 7 chC2
            (SlotList.cons (Slot.val (Value.vStr "v")) (SlotList.cons Slot.unset SlotList.nil))).1 :=
  C2_nullability trivEnv 7 chC2
    (SlotList.cons Slot.unset (SlotList.cons Slot.unset SlotList.nil))
    (SlotList.cons (Slot.val (Value.vStr "v")) (SlotList.cons Slot.unset SlotList.nil))
    1 0 "y" Value.vNone FieldKind.base
    (NodeDecl.field "x" false Value.vNone FieldKind.base) (Slot.val (Value.vStr "v"))
    rfl rfl rfl rfl rfl rfl (by decide)

/-! ### Claim C3: iteration order of the child loop -/

/-- The child-phase error list is the concatenation, in storage order, of
each child's path-qualified error list. -/
theorem childrenValidate_errors (env : HookEnv) :
    ∀ (ch : DeclList) (slots : SlotList),
      (childrenValidate env ch slots).1
        = ((ch.toList.zip slots.toList).map
            (fun p => pyQualify (nodeName p.1) (nodeValidate env p.1 p.2).1)).flatten
  | DeclList.nil, slots => by simp [childrenValidate, DeclList.toList]
  | DeclList.cons c cs, SlotList.nil => by simp [childrenValidate, SlotList.toList]
  | DeclList.cons c cs, SlotList.cons s ss => by
      have ih := childrenValidate_errors env cs ss
      simp [childrenValidate, DeclList.toList, SlotList.toList, ih]

/-- C3 counterexample: for the schema of `chC3` (declaration order
`[field_a, field_b]`, storage order `[field_b, field_a]`, both fields
required and unset), `validate_and_normalize` reports `field_b` first —
the storage order — which differs from the declaration-order error list,
refuting the claim that the error list is always ordered by the declaration
order of the children. -/
theorem C3_counterexample :
    (formValidate trivEnv false 0 chC3 slotsC3).1
      = [("field_b", "Missing data"), ("field_a", "Missing data")]
    ∧ ([("field_b", "Missing data"), ("field_a", "Missing data")] : List Err)
      ≠ [("field_a", "Missing data"), ("field_b", "Missing data")] :=
  ⟨rfl, by decide⟩

/-- C3 amended: `validate_and_normalize` visits the declared children in the
iteration order of the class's stored child collection — which the source
keeps in a `set`, so it need not be the order of declaration on the class
body — and when the child phase fails, the returned error list is exactly
the concatenation of the children's path-qualified errors in that storage
order. -/
theorem C3_storage_order (env : HookEnv) (nl : Bool) (cid : Nat)
    (ch : DeclList) (slots : SlotList)
    (hg : (formIsUnset ch slots && nl) = false)
    (hne : (childrenValidate env ch slots).1 ≠ []) :
    (formValidate env nl cid ch slots).1
      = ((ch.toList.zip slots.toList).map
          (fun p => pyQualify (nodeName p.1) (nodeValidate env p.1 p.2).1)).flatten := by
  rw [← childrenValidate_errors env ch slots]
  simp [formValidate, hg, hne]

/-- C3 amended witness: on the `chC3` schema the returned error list is the
storage-order concatenation of the per-child errors. -/
theorem C3_witness :
    (formValidate trivEnv false 0 chC3 slotsC3).1
      = ((chC3.toList.zip slotsC3.toList).map
          (fun p => pyQualify (nodeName p.1) (nodeValidate trivEnv p.1 p.2).1)).flatten :=
  C3_storage_order trivEnv false 0 chC3 slotsC3 rfl (by decide)

/-! ### Claim C6: path qualification -/

/-- C6: a child error with non-empty sub-path `p` is rewritten to
`(<child-name> ++ "." ++ p)` with every `"."` immediately preceding `"["`
removed; an empty sub-path is rewritten to exactly the child's name; a child
with a falsy name passes its errors through unqualified; the dot-bracket
collapse is observable on an index-like segment; and end-to-end, a failing
`field_c` inside a form bound as `nested` reports the path exactly
`"nested.field_c"`. -/
theorem C6_path_qualification (nm p e : String) (errs : List Err) (env : HookEnv) :
    (nm ≠ "" → p ≠ "" →
      pyQualify nm [(p, e)] = [(collapseDotBracket (nm ++ "." ++ p), e)])
    ∧ (nm ≠ "" → pyQualify nm [("", e)] = [(nm, e)])
    ∧ pyQualify "" errs = errs
    ∧ collapseDotBracket "a.[0]" = "a[0]"
    ∧ (formValidate env false 0 (DeclList.cons nestedDecl DeclList.nil)
        (SlotList.cons (Slot.sub (SlotList.cons Slot.unset SlotList.nil)) SlotList.nil)).1
      = [("nested.field_c", "Missing data")] := by
  refine ⟨?_, ?_, ?_, rfl, rfl⟩
  · intro h1 h2
    simp [pyQualify, h1, h2]
  · intro h1
    simp [pyQualify, h1]
  · simp [pyQualify]

/-- C6 witness: qualification at the concrete names of the spec's example
(`nested` / `field_c`), for both a non-empty and an empty sub-path. -/
theorem C6_witness :
    pyQualify "nested" [("field_c", "Missing data")]
      = [(collapseDotBracket ("nested" ++ "." ++ "field_c"), "Missing data")]
    ∧ pyQualify "nested" [("", "Missing data")] = [("nested", "Missing data")] := by
  have h := C6_path_qualification "nested" "field_c" "Missing data" [] trivEnv
  exact ⟨h.1 (by decide) (by decide), h.2.1 (by decide)⟩

/-! ### Claim C10: unset nested-form slots recurse through the declaration -/

/-- Child phase of an all-field form over all-sentinel storage: exactly the
per-required-leaf `Missing data` errors, and no writes. -/
theorem inner_children (env : HookEnv) :
    ∀ (sub : DeclList), allFields sub = true →
      childrenValidate env sub (declInit sub) = (innerMissing sub, declInit sub)
  | DeclList.nil, _ => rfl
  | DeclList.cons c cs, hf => by
      cases c with
      | form nm2 nl2 nf2 cid2 ch2 => simp [allFields] at hf
      | field lnm lnl d k =>
        have ih := inner_children env cs (by simpa [allFields] using hf)
        cases lnl with
        | true =>
          simp [childrenValidate, nodeValidate, declInit, fieldValidate, pyQualify,
            innerMissing, ih]
        | false =>
          have hq : pyQualify lnm [("", "Missing data")] = [(lnm, "Missing data")] := by
            rcases eq_or_ne lnm "" with h | h <;> simp [pyQualify, h]
          simp [childrenValidate, nodeValidate, declInit, fieldValidate, innerMissing,
            hq, ih, nodeName]

/-- With at least one required leaf, those errors are non-empty. -/
theorem innerMissing_ne :
    ∀ (sub : DeclList), hasRequired sub = true → innerMissing sub ≠ []
  | DeclList.nil, hr => by simp [hasRequired] at hr
  | DeclList.cons (NodeDecl.field lnm false d k) cs, _ => by
      simp [innerMissing]
  | DeclList.cons (NodeDecl.field lnm true d k) cs, hr => by
      simpa [innerMissing] using innerMissing_ne cs (by simpa [hasRequired] using hr)
  | DeclList.cons (NodeDecl.form nm2 nl2 nf2 cid2 ch2) cs, hr => by
      simpa [innerMissing] using innerMissing_ne cs (by simpa [hasRequired] using hr)

/-- Parent-side qualification of the per-leaf errors. -/
theorem qualify_innerMissing (nm : String) (hn : nm ≠ "") :
    ∀ (sub : DeclList), pyQualify nm (innerMissing sub) = qualifiedMissing nm sub
  | DeclList.nil => by simp [innerMissing, qualifiedMissing, pyQualify]
  | DeclList.cons (NodeDecl.field lnm false d k) cs => by
      have ih := qualify_innerMissing nm hn cs
      simp [innerMissing, qualifiedMissing, pyQualify, hn] at ih ⊢
      exact ih
  | DeclList.cons (NodeDecl.field lnm true d k) cs => by
      simpa [innerMissing, qualifiedMissing] using qualify_innerMissing nm hn cs
  | DeclList.cons (NodeDecl.form nm2 nl2 nf2 cid2 ch2) cs => by
      simpa [innerMissing, qualifiedMissing] using qualify_innerMissing nm hn cs

/-- C10: a non-nullable nested-form child whose slot never received input
(still the sentinel) is validated through the shared declaration object:
it does not produce a single missing-data error of its own, but exactly one
`Missing data` error per non-nullable leaf declared inside the nested
schema — qualified by the parent to `("<child-name>.<leaf-name>")` — and
the parent slot stays at the sentinel. -/
theorem C10_unset_nested_child (env : HookEnv) (nm : String) (nf : Option String)
    (cid : Nat) (sub : DeclList)
    (hf : allFields sub = true) (hr : hasRequired sub = true) (hn : nm ≠ "") :
    (nodeValidate env (NodeDecl.form nm false nf cid sub) Slot.unset).1 = innerMissing sub
    ∧ (nodeValidate env (NodeDecl.form nm false nf cid sub) Slot.unset).2 = Slot.unset
    ∧ pyQualify nm (nodeValidate env (NodeDecl.form nm false nf cid sub) Slot.unset).1
        = qualifiedMissing nm sub := by
  have hcv := inner_children env sub hf
  have hne := innerMissing_ne sub hr
  have h1 : (nodeValidate env (NodeDecl.form nm false nf cid sub) Slot.unset).1
      = innerMissing sub := by
    simp [nodeValidate, hcv, hne]
  have h2 : (nodeValidate env (NodeDecl.form nm false nf cid sub) Slot.unset).2
      = Slot.unset := by
    simp [nodeValidate, hcv, hne]
  refine ⟨h1, h2, ?_⟩
  rw [h1]
  exact qualify_innerMissing nm hn sub

/-- C10 witness: the unset nested child reports one error per required leaf
(`f1`, `f3`), and the parent-qualified paths are `nested.f1` / `nested.f3`
— not a single error at `nested` itself. -/
theorem C10_witness :
    (nodeValidate trivEnv (NodeDecl.form "nested" false none 3 subC10) Slot.unset).1
      = [("f1", "Missing data"), ("f3", "Missing data")]
    ∧ pyQualify "nested"
        (nodeValidate trivEnv (NodeDecl.form "nested" false none 3 subC10) Slot.unset).1
      = [("nested.f1", "Missing data"), ("nested.f3", "Missing data")] := by
  have h := C10_unset_nested_child trivEnv "nested" none 3 subC10 rfl rfl (by decide)
  exact ⟨h.1.trans rfl, h.2.2.trans rfl⟩

/-! ### Claim C8: idempotence of validation -/

/-- Field-level idempotence under the constructor fixed-point contract:
re-validating a field from the state the first validation left returns the
same errors and the same state. -/
theorem fieldValidate_idem (k : FieldKind) (nl : Bool) (s : Slot) (h : kindIdem k) :
    fieldValidate k nl (fieldValidate k nl s).2 = fieldValidate k nl s := by
  cases s with
  | unset => cases nl <;> rfl
  | sub st => rfl
  | val v =>
    cases k with
    | base => rfl
    | simpleType c =>
      rcases hfn : c.fn v with _ | w
      · simp [fieldValidate, applyKind, hfn]
      · have h2 := h v w hfn
        simp [fieldValidate, applyKind, hfn, h2]

/-- Validation of a stored child `Form` instance is exactly
`Form.validate_and_normalize` on that instance, with the updated instance
stored back in the slot. -/
theorem nodeValidate_form_sub (env : HookEnv) (nm : String) (nl : Bool)
    (nf : Option String) (cid : Nat) (ch : DeclList) (st : SlotList) :
    nodeValidate env (NodeDecl.form nm nl nf cid ch) (Slot.sub st)
      = ((formValidate env nl cid ch st).1, Slot.sub (formValidate env nl cid ch st).2) := by
  by_cases hg : (formIsUnset ch st && nl) = true
  · simp [nodeValidate, formValidate, hg]
  · have hg2 : (formIsUnset ch st && nl) = false := by
      revert hg; cases formIsUnset ch st && nl <;> simp
    by_cases hr : (childrenValidate env ch st).1 = []
    · simp [nodeValidate, formValidate, hg2, hr]
    · simp [nodeValidate, formValidate, hg2, hr]

/-- Validating a form child whose slot holds a raw value (unreachable
through the engine's API) keeps the slot unchanged. -/
theorem nodeValidate_form_val (env : HookEnv) (nm : String) (nl : Bool)
    (nf : Option String) (cid : Nat) (ch : DeclList) (v : Value) :
    (nodeValidate env (NodeDecl.form nm nl nf cid ch) (Slot.val v)).2 = Slot.val v := by
  simp only [nodeValidate]
  split
  · rfl
  · split <;> rfl

/-- The state `Form.validate_and_normalize` leaves behind is either the
input state (nullable-unset early return) or the state the child loop
produced. -/
theorem formValidate_snd (env : HookEnv) (nl : Bool) (cid : Nat)
    (ch : DeclList) (slots : SlotList) :
    (formValidate env nl cid ch slots).2 = slots
    ∨ (formValidate env nl cid ch slots).2 = (childrenValidate env ch slots).2 := by
  by_cases hg : (formIsUnset ch slots && nl) = true
  · left; simp [formValidate, hg]
  · have hg2 : (formIsUnset ch slots && nl) = false := by
      revert hg; cases formIsUnset ch slots && nl <;> simp
    right
    by_cases hr : (childrenValidate env ch slots).1 = []
    · simp [formValidate, hg2, hr]
    · simp [formValidate, hg2, hr]

mutual
/-- Validation never changes whether a child reports unset: unset slots stay
unset, set values stay set, and a stored sub-form keeps its unset status
child by child. -/
theorem nodeValidate_pres_unset (env : HookEnv) :
    (c : NodeDecl) → (s : Slot) →
      nodeIsUnset c (nodeValidate env c s).2 = nodeIsUnset c s
  | NodeDecl.field nm nl d k, s => by
      show nodeIsUnset (NodeDecl.field nm nl d k) (fieldValidate k nl s).2
        = nodeIsUnset (NodeDecl.field nm nl d k) s
      cases s with
      | unset => cases nl <;> rfl
      | sub st => rfl
      | val v =>
        cases k with
        | base => rfl
        | simpleType c2 =>
          rcases hfn : c2.fn v with _ | w <;>
            simp [fieldValidate, applyKind, hfn, nodeIsUnset, slotIsSentinel]
  | NodeDecl.form nm nl nf cid ch, Slot.sub st => by
      have hp := childrenValidate_pres_unset env ch st
      rw [nodeValidate_form_sub]
      show formIsUnset ch (formValidate env nl cid ch st).2 = formIsUnset ch st
      rcases formValidate_snd env nl cid ch st with h | h
      · rw [h]
      · rw [h, hp]
  | NodeDecl.form nm nl nf cid ch, Slot.unset => by
      rw [nodeValidate_unset_slot env (NodeDecl.form nm nl nf cid ch)]
  | NodeDecl.form nm nl nf cid ch, Slot.val v => by
      rw [nodeValidate_form_val]
termination_by c _ => sizeOf c

/-- The child loop never changes which children report unset. -/
theorem childrenValidate_pres_unset (env : HookEnv) :
    (ch : DeclList) → (slots : SlotList) →
      formIsUnset ch (childrenValidate env ch slots).2 = formIsUnset ch slots
  | DeclList.nil, slots => by simp [childrenValidate]
  | DeclList.cons c cs, SlotList.nil => by simp [childrenValidate, formIsUnset]
  | DeclList.cons c cs, SlotList.cons s ss => by
      have h1 := nodeValidate_pres_unset env c s
      have h2 := childrenValidate_pres_unset env cs ss
      show formIsUnset (DeclList.cons c cs)
          (SlotList.cons (nodeValidate env c s).2 (childrenValidate env cs ss).2)
        = formIsUnset (DeclList.cons c cs) (SlotList.cons s ss)
      simp [formIsUnset, h1, h2]
termination_by ch _ => sizeOf ch
end

/-- Form-level idempotence, given that the child loop is idempotent and
preserves unset-ness on this state. -/
theorem formValidate_idem_of (env : HookEnv) (nl : Bool) (cid : Nat)
    (ch : DeclList) (slots : SlotList)
    (hidem : childrenValidate env ch (childrenValidate env ch slots).2
      = childrenValidate env ch slots)
    (hpres : formIsUnset ch (childrenValidate env ch slots).2 = formIsUnset ch slots) :
    formValidate env nl cid ch (formValidate env nl cid ch slots).2
      = formValidate env nl cid ch slots := by
  by_cases hg : (formIsUnset ch slots && nl) = true
  · have h2 : (formValidate env nl cid ch slots).2 = slots := by simp [formValidate, hg]
    rw [h2]
  · have hg2 : (formIsUnset ch slots && nl) = false := by
      revert hg; cases formIsUnset ch slots && nl <;> simp
    have hg3 : (formIsUnset ch (childrenValidate env ch slots).2 && nl) = false := by
      rw [hpres]; exact hg2
    by_cases hr : (childrenValidate env ch slots).1 = []
    · have h2 : (formValidate env nl cid ch slots).2 = (childrenValidate env ch slots).2 := by
        simp [formValidate, hg2, hr]
      rw [h2]
      simp [formValidate, hg2, hg3, hr, hidem]
    · have h2 : (formValidate env nl cid ch slots).2 = (childrenValidate env ch slots).2 := by
        simp [formValidate, hg2, hr]
      rw [h2]
      simp [formValidate, hg2, hg3, hr, hidem]

mutual
/-- Node-level idempotence under the fixed-point contract. -/
theorem nodeValidate_idem (env : HookEnv) :
    (c : NodeDecl) → (s : Slot) → nodeIdem c →
      nodeValidate env c (nodeValidate env c s).2 = nodeValidate env c s
  | NodeDecl.field nm nl d k, s, h => fieldValidate_idem k nl s h
  | NodeDecl.form nm nl nf cid ch, Slot.sub st, h => by
      have hidem := childrenValidate_idem env ch st h
      have hpres := childrenValidate_pres_unset env ch st
      have hfe := formValidate_idem_of env nl cid ch st hidem hpres
      rw [nodeValidate_form_sub, nodeValidate_form_sub, hfe]
  | NodeDecl.form nm nl nf cid ch, Slot.unset, h => by
      rw [nodeValidate_unset_slot env (NodeDecl.form nm nl nf cid ch)]
  | NodeDecl.form nm nl nf cid ch, Slot.val v, h => by
      rw [nodeValidate_form_val]
termination_by c _ _ => sizeOf c

/-- Child-loop idempotence under the fixed-point contract. -/
theorem childrenValidate_idem (env : HookEnv) :
    (ch : DeclList) → (slots : SlotList) → declsIdem ch →
      childrenValidate env ch (childrenValidate env ch slots).2
        = childrenValidate env ch slots
  | DeclList.nil, slots, _ => rfl
  | DeclList.cons c cs, SlotList.nil, _ => rfl
  | DeclList.cons c cs, SlotList.cons s ss, h => by
      obtain ⟨h1, h2⟩ := h
      have hi1 := nodeValidate_idem env c s h1
      have hi2 := childrenValidate_idem env cs ss h2
      show childrenValidate env (DeclList.cons c cs)
          (SlotList.cons (nodeValidate env c s).2 (childrenValidate env cs ss).2)
        = childrenValidate env (DeclList.cons c cs) (SlotList.cons s ss)
      simp [childrenValidate, hi1, hi2]
termination_by ch _ _ => sizeOf ch
end

/-- C8: when every constructor in the schema satisfies the fixed-point
contract (`constructor(constructor(v)) == constructor(v)`), running
`validate_and_normalize` a second time on the instance returns the same
error list as the first run and leaves every child slot exactly as the
first run left it.  (Whole-form hooks are pure functions of the instance
state in this model.) -/
theorem C8_idempotent (env : HookEnv) (nl : Bool) (cid : Nat) (ch : DeclList)
    (slots : SlotList) (h : declsIdem ch) :
    formValidate env nl cid ch (formValidate env nl cid ch slots).2
      = formValidate env nl cid ch slots :=
  formValidate_idem_of env nl cid ch slots
    (childrenValidate_idem env ch slots h)
    (childrenValidate_pres_unset env ch slots)

/-- The sample `int` constructor satisfies the fixed-point contract: its
outputs are ints, and `int` is the identity on ints. -/
theorem intCtor_idem : kindIdem (FieldKind.simpleType intCtor) := by
  intro v w h
  cases v with
  | vNone => simp [intCtor, pyIntFn] at h
  | vDict es => simp [intCtor, pyIntFn] at h
  | vInt n =>
    simp [intCtor, pyIntFn] at h
    subst h
    simp [intCtor, pyIntFn]
  | vStr s =>
    simp [intCtor, pyIntFn] at h
    obtain ⟨n, hn, hw⟩ := h
    subst hw
    simp [intCtor, pyIntFn]

/-- C8 witness: a form with one `SimpleTypeField(int)` holding `"10"` —
the second validation run reproduces the first run's output exactly. -/
theorem C8_witness :
    formValidate trivEnv false 0 chC8
        (formValidate trivEnv false 0 chC8
          (SlotList.cons (Slot.val (Value.vStr "10")) SlotList.nil)).2
      = formValidate trivEnv false 0 chC8
          (SlotList.cons (Slot.val (Value.vStr "10")) SlotList.nil) :=
  C8_idempotent trivEnv false 0 chC8
    (SlotList.cons (Slot.val (Value.vStr "10")) SlotList.nil)
    ⟨intCtor_idem, trivial⟩

/-! ### Claim C7: source distribution -/

/-- A key carried by no declared child leaves the child storage untouched. -/
theorem assignKey_unknown :
    ∀ (ch : DeclList) (slots : SlotList) (k : String) (v : Value),
      declHasName ch k = false → assignKey ch slots k v = some slots
  | DeclList.nil, slots, k, v, _ => by simp [assignKey]
  | DeclList.cons c cs, SlotList.nil, k, v, _ => by simp [assignKey]
  | DeclList.cons c cs, SlotList.cons s ss, k, v, h => by
      simp [declHasName] at h
      obtain ⟨h1, h2⟩ := h
      rw [assignKey.eq_def]
      simp [h1, assignKey_unknown cs ss k v h2]

/-- A key carried by a field child (at the first matching position) stores
the raw document value into exactly that child's slot. -/
theorem assignKey_field :
    ∀ (ch : DeclList) (slots : SlotList) (k : String) (v : Value) (i : Nat)
      (nm2 : String) (nl2 : Bool) (d2 : Value) (k2 : FieldKind),
      firstIdxName ch k = some i →
      DeclList.get? ch i = some (NodeDecl.field nm2 nl2 d2 k2) →
      SlotList.length slots = DeclList.length ch →
      assignKey ch slots k v = some (SlotList.set slots i (Slot.val v))
  | DeclList.nil, slots, k, v, i, nm2, nl2, d2, k2, hidx, _, _ =>
      Option.noConfusion hidx
  | DeclList.cons c cs, SlotList.nil, k, v, i, nm2, nl2, d2, k2, _, _, hlen => by
      simp [SlotList.length, DeclList.length] at hlen
  | DeclList.cons c cs, SlotList.cons s ss, k, v, i, nm2, nl2, d2, k2, hidx, hget, hlen => by
      by_cases hc : nodeName c = k
      · have hi0 : i = 0 := by
          simp [firstIdxName, hc] at hidx
          omega
        subst hi0
        simp [DeclList.get?] at hget
        subst hget
        rw [assignKey.eq_def]
        simp [hc, SlotList.set]
      · rcases hidx2 : firstIdxName cs k with _ | i2
        · simp [firstIdxName, hc, hidx2] at hidx
        · have hi : i = i2 + 1 := by
            simp [firstIdxName, hc, hidx2] at hidx
            omega
          subst hi
          have hget2 : DeclList.get? cs i2 = some (NodeDecl.field nm2 nl2 d2 k2) := by
            simpa [DeclList.get?] using hget
          have hlen2 : SlotList.length ss = DeclList.length cs := by
            simp [SlotList.length, DeclList.length] at hlen
            omega
          have ih := assignKey_field cs ss k v i2 nm2 nl2 d2 k2 hidx2 hget2 hlen2
          rw [assignKey.eq_def]
          simp [hc, ih, SlotList.set]

/-- A key carried by a form child (at the first matching position) stores a
fresh instance of that child's class, recursively fed the sub-document,
into exactly that child's slot. -/
theorem assignKey_form :
    ∀ (ch : DeclList) (slots : SlotList) (k : String) (v : Value) (i : Nat)
      (nm3 : String) (nl3 : Bool) (nf3 : Option String) (cid3 : Nat)
      (sub : DeclList) (st : SlotList),
      firstIdxName ch k = some i →
      DeclList.get? ch i = some (NodeDecl.form nm3 nl3 nf3 cid3 sub) →
      SlotList.length slots = DeclList.length ch →
      processSource sub nf3 (some nm3) (declInit sub) v = some st →
      assignKey ch slots k v = some (SlotList.set slots i (Slot.sub st))
  | DeclList.nil, slots, k, v, i, nm3, nl3, nf3, cid3, sub, st, hidx, _, _, _ =>
      Option.noConfusion hidx
  | DeclList.cons c cs, SlotList.nil, k, v, i, nm3, nl3, nf3, cid3, sub, st, _, _, hlen, _ => by
      simp [SlotList.length, DeclList.length] at hlen
  | DeclList.cons c cs, SlotList.cons s ss, k, v, i, nm3, nl3, nf3, cid3, sub, st,
      hidx, hget, hlen, hps => by
      by_cases hc : nodeName c = k
      · have hi0 : i = 0 := by
          simp [firstIdxName, hc] at hidx
          omega
        subst hi0
        simp [DeclList.get?] at hget
        subst hget
        rw [assignKey.eq_def]
        simp [hc, hps, SlotList.set]
      · rcases hidx2 : firstIdxName cs k with _ | i2
        · simp [firstIdxName, hc, hidx2] at hidx
        · have hi : i = i2 + 1 := by
            simp [firstIdxName, hc, hidx2] at hidx
            omega
          subst hi
          have hget2 : DeclList.get? cs i2 = some (NodeDecl.form nm3 nl3 nf3 cid3 sub) := by
            simpa [DeclList.get?] using hget
          have hlen2 : SlotList.length ss = DeclList.length cs := by
            simp [SlotList.length, DeclList.length] at hlen
            omega
          have ih := assignKey_form cs ss k v i2 nm3 nl3 nf3 cid3 sub st hidx2 hget2 hlen2 hps
          rw [assignKey.eq_def]
          simp [hc, ih, SlotList.set]

/-- `setattr` resolution preserves the number of slots. -/
theorem assignKey_length :
    ∀ (ch : DeclList) (slots : SlotList) (k : String) (v : Value) (out : SlotList),
      assignKey ch slots k v = some out → SlotList.length out = SlotList.length slots
  | DeclList.nil, slots, k, v, out, h => by
      rw [assignKey.eq_def] at h
      simp at h
      rw [← h]
  | DeclList.cons c cs, SlotList.nil, k, v, out, h => by
      rw [assignKey.eq_def] at h
      simp at h
      rw [← h]
  | DeclList.cons c cs, SlotList.cons s ss, k, v, out, h => by
      rw [assignKey.eq_def] at h
      by_cases hc : nodeName c = k
      · cases c with
        | field nm2 nl2 d2 k2 =>
            simp [hc] at h
            rw [← h]
            simp [SlotList.length]
        | form nm3 nl3 nf3 cid3 sub =>
            rcases hps : processSource sub nf3 (some nm3) (declInit sub) v with _ | st
            · simp [hc, hps] at h
            · simp [hc, hps] at h
              rw [← h]
              simp [SlotList.length]
      · rcases hrec : assignKey cs ss k v with _ | ss1
        · simp [hc, hrec] at h
        · simp [hc, hrec] at h
          rw [← h]
          have := assignKey_length cs ss k v ss1 hrec
          simp [SlotList.length, this]

/-- The distribution loop preserves the number of slots. -/
theorem distribute_length :
    ∀ (es : EntryList) (ch : DeclList) (slots out : SlotList),
      distribute ch slots es = some out → SlotList.length out = SlotList.length slots
  | EntryList.nil, ch, slots, out, h => by
      rw [distribute.eq_def] at h
      simp at h
      rw [← h]
  | EntryList.cons k v rest, ch, slots, out, h => by
      rw [distribute.eq_def] at h
      rcases ha : assignKey ch slots k v with _ | s1
      · simp [ha] at h
      · simp [ha] at h
        have h1 := distribute_length rest ch s1 out h
        have h2 := assignKey_length ch slots k v s1 ha
        omega

/-- An index carrying a declaration is in range. -/
theorem declGet_lt :
    ∀ (ch : DeclList) (i : Nat) (c : NodeDecl),
      DeclList.get? ch i = some c → i < DeclList.length ch
  | DeclList.nil, i, c, h => by simp [DeclList.get?] at h
  | DeclList.cons c0 cs, 0, c, _ => by
      simp [DeclList.length]
  | DeclList.cons c0 cs, Nat.succ i, c, h => by
      have := declGet_lt cs i c (by simpa [DeclList.get?] using h)
      simp [DeclList.length]
      omega

/-- Reading back a slot just written. -/
theorem slotGet_set_self :
    ∀ (sl : SlotList) (i : Nat) (x : Slot),
      i < SlotList.length sl → SlotList.get? (SlotList.set sl i x) i = some x
  | SlotList.nil, i, x, h => by simp [SlotList.length] at h
  | SlotList.cons s ss, 0, x, _ => rfl
  | SlotList.cons s ss, Nat.succ i, x, h => by
      have hlt : i < SlotList.length ss := by
        simp [SlotList.length] at h
        omega
      simpa [SlotList.set, SlotList.get?] using slotGet_set_self ss i x hlt

/-- The name-field step of `process_source` wins: whatever the document
supplied, after a successful `process_source` the field named by
`name_field` holds the form's own bound name. -/
theorem processSource_name_field (ch : DeclList) (f : String) (sn : Option String)
    (slots : SlotList) (src : Value) (out : SlotList) (i : Nat)
    (nm2 : String) (nl2 : Bool) (d2 : Value) (k2 : FieldKind)
    (hne : f ≠ "")
    (hidx : firstIdxName ch f = some i)
    (hget : DeclList.get? ch i = some (NodeDecl.field nm2 nl2 d2 k2))
    (hlen : SlotList.length slots = DeclList.length ch)
    (hout : processSource ch (some f) sn slots src = some out) :
    SlotList.get? out i = some (Slot.val (nameValue sn)) := by
  have hact : nameFieldActive (some f) = true := by simp [nameFieldActive, hne]
  have hlt : i < DeclList.length ch := declGet_lt ch i _ hget
  by_cases ht : pyTruthy src = true
  · cases src with
    | vNone => simp [pyTruthy] at ht
    | vStr s2 =>
        rw [processSource.eq_def] at hout
        simp [ht] at hout
    | vInt n =>
        rw [processSource.eq_def] at hout
        simp [ht] at hout
    | vDict es =>
        rcases hd : distribute ch slots es with _ | s1
        · rw [processSource.eq_def] at hout
          simp [ht, hd] at hout
        · have hstep : processSource ch (some f) sn slots (Value.vDict es)
              = assignKey ch s1 f (nameValue sn) := by
            rw [processSource.eq_def]
            simp [ht, hd, hact]
          rw [hstep] at hout
          have hlen1 : SlotList.length s1 = DeclList.length ch := by
            rw [distribute_length es ch slots s1 hd, hlen]
          have hka := assignKey_field ch s1 f (nameValue sn) i nm2 nl2 d2 k2 hidx hget hlen1
          rw [hka] at hout
          rw [← Option.some.inj hout]
          exact slotGet_set_self s1 i _ (by rw [hlen1]; exact hlt)
  · have ht2 : pyTruthy src = false := by
      revert ht; cases pyTruthy src <;> simp
    have hstep : processSource ch (some f) sn slots src
        = assignKey ch slots f (nameValue sn) := by
      rw [processSource.eq_def]
      simp [ht2, hact]
    rw [hstep] at hout
    have hka := assignKey_field ch slots f (nameValue sn) i nm2 nl2 d2 k2 hidx hget hlen
    rw [hka] at hout
    rw [← Option.some.inj hout]
    exact slotGet_set_self slots i _ (by rw [hlen]; exact hlt)

/-- C7: `process_source` distributes each document entry to the declared
child carrying its key — a field child stores the raw value verbatim, a
form child receives a fresh instance recursively fed the sub-document —
silently ignores keys matching no declared child, afterwards force-assigns
the form's own bound name into the `name_field` child, overriding any value
the document supplied under that key, and on a falsy document performs only
the name-field step (acting exactly like the empty document). -/
theorem C7_process_source (ch : DeclList) (nf : Option String) (f : String)
    (sn : Option String) (slots : SlotList) (src : Value) (out : SlotList)
    (k : String) (v : Value) (i : Nat)
    (nm2 : String) (nl2 : Bool) (d2 : Value) (k2 : FieldKind)
    (nm3 : String) (nl3 : Bool) (nf3 : Option String) (cid3 : Nat) (sub : DeclList)
    (st : SlotList) :
    (pyTruthy src = false →
      processSource ch nf sn slots src
        = processSource ch nf sn slots (Value.vDict EntryList.nil))
    ∧ (pyTruthy src = false → processSource ch none sn slots src = some slots)
    ∧ (processSource ch none sn slots (Value.vDict (EntryList.cons k v EntryList.nil))
        = assignKey ch slots k v)
    ∧ (declHasName ch k = false → assignKey ch slots k v = some slots)
    ∧ (firstIdxName ch k = some i →
        DeclList.get? ch i = some (NodeDecl.field nm2 nl2 d2 k2) →
        SlotList.length slots = DeclList.length ch →
        assignKey ch slots k v = some (SlotList.set slots i (Slot.val v)))
    ∧ (firstIdxName ch k = some i →
        DeclList.get? ch i = some (NodeDecl.form nm3 nl3 nf3 cid3 sub) →
        SlotList.length slots = DeclList.length ch →
        processSource sub nf3 (some nm3) (declInit sub) v = some st →
        assignKey ch slots k v = some (SlotList.set slots i (Slot.sub st)))
    ∧ (nf = some f → f ≠ "" →
        firstIdxName ch f = some i →
        DeclList.get? ch i = some (NodeDecl.field nm2 nl2 d2 k2) →
        SlotList.length slots = DeclList.length ch →
        processSource ch nf sn slots src = some out →
        SlotList.get? out i = some (Slot.val (nameValue sn))) := by
  refine ⟨?_, ?_, ?_,
    fun h => assignKey_unknown ch slots k v h,
    fun a b c2 => assignKey_field ch slots k v i nm2 nl2 d2 k2 a b c2,
    fun a b c2 d3 => assignKey_form ch slots k v i nm3 nl3 nf3 cid3 sub st a b c2 d3,
    ?_⟩
  · intro h
    rw [processSource.eq_def, processSource.eq_def]
    simp [h, show pyTruthy (Value.vDict EntryList.nil) = false from rfl]
  · intro h
    rw [processSource.eq_def]
    simp [h, nameFieldActive]
  · have hd : distribute ch slots (EntryList.cons k v EntryList.nil)
        = assignKey ch slots k v := by
      rw [distribute.eq_def]
      rcases ha : assignKey ch slots k v with _ | s1
      · simp [ha]
      · simp [ha]
        rw [distribute.eq_def]
    rw [processSource.eq_def]
    simp [hd, show pyTruthy (Value.vDict (EntryList.cons k v EntryList.nil)) = true from rfl,
      nameFieldActive]
    rcases ha : assignKey ch slots k v with _ | s1 <;> simp [ha]
  · intro hnf a b c2 d3 e2
    subst hnf
    exact processSource_name_field ch f sn slots src out i nm2 nl2 d2 k2 a b c2 d3 e2

/-- C7 witness: on the `chC7` schema — a falsy document with no name-field
is a no-op; the unknown key `junk` is ignored; `field_a` receives the raw
string; `nested` receives a fresh recursively-distributed instance; and
with `name_field = "field_a"` and own name `"myname"`, the document's value
for `field_a` is overridden by `"myname"`. -/
theorem C7_witness :
    processSource chC7 none none (declInit chC7) Value.vNone = some (declInit chC7)
    ∧ assignKey chC7 (declInit chC7) "junk" (Value.vInt 5) = some (declInit chC7)
    ∧ assignKey chC7 (declInit chC7) "field_a" (Value.vStr "10")
        = some (SlotList.set (declInit chC7) 0 (Slot.val (Value.vStr "10")))
    ∧ assignKey chC7 (declInit chC7) "nested"
          (Value.vDict (EntryList.cons "field_c" (Value.vStr "x") EntryList.nil))
        = some (SlotList.set (declInit chC7) 1
            (Slot.sub (SlotList.cons (Slot.val (Value.vStr "x")) SlotList.nil)))
    ∧ SlotList.get? outC7 0 = some (Slot.val (nameValue (some "myname"))) := by
  refine ⟨?_, ?_, ?_, ?_, ?_⟩
  · exact (C7_process_source chC7 none "f" none (declInit chC7) Value.vNone SlotList.nil
      "k" Value.vNone 0 "" false Value.vNone FieldKind.base
      "" false none 0 DeclList.nil SlotList.nil).2.1 rfl
  · exact (C7_process_source chC7 none "f" none (declInit chC7) Value.vNone SlotList.nil
      "junk" (Value.vInt 5) 0 "" false Value.vNone FieldKind.base
      "" false none 0 DeclList.nil SlotList.nil).2.2.2.1 rfl
  · exact (C7_process_source chC7 none "f" none (declInit chC7) Value.vNone SlotList.nil
      "field_a" (Value.vStr "10") 0 "field_a" false Value.vNone FieldKind.base
      "" false none 0 DeclList.nil SlotList.nil).2.2.2.2.1 rfl rfl rfl
  · exact (C7_process_source chC7 none "f" none (declInit chC7) Value.vNone SlotList.nil
      "nested" (Value.vDict (EntryList.cons "field_c" (Value.vStr "x") EntryList.nil)) 1
      "" false Value.vNone FieldKind.base
      "nested" false none 1
      (DeclList.cons (NodeDecl.field "field_c" false Value.vNone FieldKind.base) DeclList.nil)
      (SlotList.cons (Slot.val (Value.vStr "x")) SlotList.nil)).2.2.2.2.2.1 rfl rfl rfl
      (by simp [processSource, distribute, assignKey, declInit, pyTruthy,
        nameFieldActive, nodeName])
  · have hout : processSource chC7 (some "field_a") (some "myname") (declInit chC7)
        (Value.vDict (EntryList.cons "field_a" (Value.vStr "doc") EntryList.nil))
        = some outC7 := by
      simp [processSource, distribute, assignKey, chC7, nestedDecl, declInit, pyTruthy,
        nameFieldActive, nodeName, nameValue, outC7]
    exact (C7_process_source chC7 (some "field_a") "field_a" (some "myname")
      (declInit chC7)
      (Value.vDict (EntryList.cons "field_a" (Value.vStr "doc") EntryList.nil)) outC7
      "k" Value.vNone 0 "field_a" false Value.vNone FieldKind.base
      "" false none 0 DeclList.nil SlotList.nil).2.2.2.2.2.2 rfl (by decide) rfl rfl rfl hout

end Cascade
